import Mathlib

/-!
Verification of the lookup-table strategy engine of this repository
(src/axelrod/strategies/gambler.py and src/axelrod/strategies/anand.py).

The two source files are embedded shallowly: match histories and lookup keys
become lists of `Action`, floating-point weights become rationals, the numpy
and `random` draws consumed by the genetic operators become explicit streams
(`ℕ → ℚ`, `ℕ → Action`) passed as arguments, and Python exceptions become
`Except`/`Option` results.  Helper code that the two files import from the
rest of the library (the key generator, `LookupTable.from_pattern`, the
evolvable-player constructor, `random_choice`, the action/string codecs and
`MemoryOnePlayer.set_four_vector`) is not part of the two files; each such
helper is modelled from the specification and marked as such in its doc
comment.
-/

namespace Axelrod

/-- An action in the iterated prisoner's dilemma: cooperate or defect. -/
inductive Action : Type
  | C : Action
  | D : Action
deriving DecidableEq

open Action

/-- A lookup key: (self-history window, opponent-history window,
opponent-opening window). -/
abbrev PlaysKey := List Action × List Action × List Action

/-- Modelled from the spec: all action sequences of a given length, in
lexicographic order with `C` before `D` (the key generator lives in
`axelrod/strategies/lookerup.py`, outside the two source files). -/
def actionSequences : ℕ → List (List Action)
  | 0 => [[]]
  | n + 1 =>
      (actionSequences n).map (fun s => C :: s) ++
        (actionSequences n).map (fun s => D :: s)

/-- Modelled from the spec: `create_lookup_table_keys` enumerates the product
key space in a fixed order, self window outermost, then opponent window, then
opponent-opening window (spec section 4.1). -/
def create_lookup_table_keys (d1 d2 d3 : ℕ) : List PlaysKey :=
  (actionSequences d1).flatMap (fun s1 =>
    (actionSequences d2).flatMap (fun s2 =>
      (actionSequences d3).map (fun s3 => (s1, s2, s3))))

/-- A lookup table: association list from keys to cooperation weights, in
generator order. -/
abbrev LookupTable := List (PlaysKey × ℚ)

/-- Errors raised by the engine (spec section 7). -/
inductive StrategyError : Type
  | configurationError : StrategyError
  | deserializationError : StrategyError
deriving DecidableEq

/-- Modelled from the spec: `LookupTable.from_pattern` (section 4.2) fails
with a size-mismatch error when the pattern length differs from the key-space
size, and otherwise zips the generator's keys with the pattern positionally. -/
def from_pattern (pattern : List ℚ) (d1 d2 d3 : ℕ) :
    Except StrategyError LookupTable :=
  if pattern.length = (create_lookup_table_keys d1 d2 d3).length
  then Except.ok ((create_lookup_table_keys d1 d2 d3).zip pattern)
  else Except.error StrategyError.configurationError

/-- Association-list lookup in a `LookupTable`. -/
def tableGet : LookupTable → PlaysKey → Option ℚ
  | [], _ => none
  | (k', w) :: rest, k => if k' = k then some w else tableGet rest k

/-- State of an `EvolvableGambler` instance: the `Plays` parameter triple,
the flat pattern of weights, the seed actions, the mutation probability
(`none` models Python's `None` default) and the cached lookup table. -/
structure EvolvableGambler : Type where
  parameters : ℕ × ℕ × ℕ
  pattern : List ℚ
  initial_actions : List Action
  mutation_probability : Option ℚ
  lookupTable : LookupTable
deriving DecidableEq

/-- The largest configured depth, `max([plays, op_plays, op_start_plays])`. -/
def maxDepth (p : ℕ × ℕ × ℕ) : ℕ := max p.1 (max p.2.1 p.2.2)

/-- Size of the key space for a parameter triple. -/
def keySpaceSize (p : ℕ × ℕ × ℕ) : ℕ :=
  (create_lookup_table_keys p.1 p.2.1 p.2.2).length

/-- Modelled from the spec: the `EvolvableLookerUp`/`EvolvableGambler`
constructor (outside the two source files) validates the pattern length
against the key space and the seed-action length against the largest depth
(spec section 3), stores the given fields, and builds the table from the
pattern. -/
def mkEvolvableGambler (parameters : ℕ × ℕ × ℕ) (pattern : List ℚ)
    (initial_actions : List Action) (mutation_probability : Option ℚ) :
    Option EvolvableGambler :=
  if pattern.length =
      (create_lookup_table_keys parameters.1 parameters.2.1 parameters.2.2).length
    ∧ maxDepth parameters ≤ initial_actions.length
  then some ⟨parameters, pattern, initial_actions, mutation_probability,
    (create_lookup_table_keys parameters.1 parameters.2.1 parameters.2.2).zip
      pattern⟩
  else none

/-- An instance as produced by the constructor: the pattern matches the key
space and the seed actions cover the largest depth. -/
def WellFormed (s : EvolvableGambler) : Prop :=
  s.pattern.length = keySpaceSize s.parameters ∧
    maxDepth s.parameters ≤ s.initial_actions.length

instance (s : EvolvableGambler) : Decidable (WellFormed s) := by
  unfold WellFormed; infer_instance

/-- `EvolvableGambler.receive_vector`: replaces the pattern with the vector
and rebuilds the lookup table via `LookupTable.from_pattern`. -/
def receive_vector (s : EvolvableGambler) (vector : List ℚ) :
    Except StrategyError EvolvableGambler :=
  match from_pattern vector s.parameters.1 s.parameters.2.1 s.parameters.2.2 with
  | Except.ok t => Except.ok { s with pattern := vector, lookupTable := t }
  | Except.error e => Except.error e

/-- One entry of `mutate_pattern` when selected for mutation: add the offset,
then clamp below at 0 and above at 1, in the source's order. -/
def mutateEntry (x ep : ℚ) : ℚ :=
  let v := x + ep
  let v1 := if v < 0 then 0 else v
  if v1 > 1 then 1 else v1

/-- The loop of `EvolvableGambler.mutate_pattern`, with the entry index made
explicit. -/
def mutatePatternGo (randoms eps : ℕ → ℚ) (p : ℚ) : ℕ → List ℚ → List ℚ
  | _, [] => []
  | i, x :: xs =>
      (if randoms i < p then mutateEntry x (eps i) else x)
        :: mutatePatternGo randoms eps p (i + 1) xs

/-- `EvolvableGambler.mutate_pattern`: `randoms i` models the
`np.random.random` draw for entry `i` (a value in `[0,1)`) and `eps i` models
the `random.uniform(-1, 1) / 4` offset used when entry `i` is selected. -/
def mutate_pattern (pattern : List ℚ) (randoms eps : ℕ → ℚ) (p : ℚ) :
    List ℚ :=
  mutatePatternGo randoms eps p 0 pattern

/-- `EvolvableGambler.mutate`.  The source calls
`self.mutate_pattern(self.pattern, self.mutation_probability)`, which updates
the caller's pattern list in place (`pattern[i] += ep`) without rebuilding the
caller's cached table, and then constructs the offspring from the mutated
pattern, the same parameters, freshly drawn seed actions of length
`max(plays, op_plays, op_start_plays)` (`coin` is the stream of
`choice((C, D))` draws) and the same mutation probability.  The result is
`(caller's state after the call, offspring)`; `none` models the `TypeError`
raised when `mutation_probability` is `None`. -/
def mutate (s : EvolvableGambler) (randoms eps : ℕ → ℚ) (coin : ℕ → Action) :
    Option (EvolvableGambler × EvolvableGambler) :=
  match s.mutation_probability with
  | none => none
  | some p =>
      let pattern := mutate_pattern s.pattern randoms eps p
      let selfAfter : EvolvableGambler := { s with pattern := pattern }
      let num_actions := maxDepth s.parameters
      let initial_actions := (List.range num_actions).map coin
      match mkEvolvableGambler s.parameters pattern initial_actions (some p) with
      | some offspring => some (selfAfter, offspring)
      | none => none

/-- `EvolvableGambler.crossover`: `cross_point` models the
`random.randint(0, len(pattern1))` draw; the offspring takes this instance's
weights before the split, the other's from the split on, this instance's seed
actions and mutation probability. -/
def crossover (s other : EvolvableGambler) (cross_point : ℕ) :
    Option EvolvableGambler :=
  let offspring_pattern :=
    s.pattern.take cross_point ++ other.pattern.drop cross_point
  mkEvolvableGambler s.parameters offspring_pattern s.initial_actions
    s.mutation_probability

/-- Decimal digit to character. -/
def digitChar : ℕ → Char
  | 0 => '0'
  | 1 => '1'
  | 2 => '2'
  | 3 => '3'
  | 4 => '4'
  | 5 => '5'
  | 6 => '6'
  | 7 => '7'
  | 8 => '8'
  | _ => '9'

/-- Character to decimal digit, `none` on a non-digit. -/
def charToDigit? (c : Char) : Option ℕ :=
  if c = '0' then some 0 else if c = '1' then some 1 else if c = '2' then some 2
  else if c = '3' then some 3 else if c = '4' then some 4 else if c = '5' then some 5
  else if c = '6' then some 6 else if c = '7' then some 7 else if c = '8' then some 8
  else if c = '9' then some 9 else none

/-- Little-endian decimal digits of `n`, with explicit fuel so the definition
is structurally recursive; `fuel ≥ n` suffices. -/
def natDigitsAuxLE : ℕ → ℕ → List ℕ
  | _, 0 => []
  | 0, _ + 1 => []
  | fuel + 1, n + 1 => (n + 1) % 10 :: natDigitsAuxLE fuel ((n + 1) / 10)

/-- Decimal rendering of a natural number, as Python's `str` on an `int`. -/
def natToChars (n : ℕ) : List Char :=
  if n = 0 then ['0'] else ((natDigitsAuxLE n n).map digitChar).reverse

/-- Value of a little-endian digit list. -/
def ofDigitsLE : List ℕ → ℕ
  | [] => 0
  | d :: ds => d + 10 * ofDigitsLE ds

/-- Map a fallible function over a list, failing if any element fails; models
Python's `list(map(f, xs))` when `f` can raise. -/
def mapOption (f : α → Option β) : List α → Option (List β)
  | [] => some []
  | a :: as =>
      match f a, mapOption f as with
      | some b, some bs => some (b :: bs)
      | _, _ => none

/-- Decimal parsing of a natural number, as Python's `int` on a digit string;
fails on an empty string or a non-digit. -/
def charsToNat? (cs : List Char) : Option ℕ :=
  match cs with
  | [] => none
  | _ :: _ => (mapOption charToDigit? cs).map (fun ds => ofDigitsLE ds.reverse)

/-- Single letter for an action. -/
def actionChar : Action → Char
  | C => 'C'
  | D => 'D'

/-- Modelled from the spec: `actions_to_str` (in `axelrod/action.py`, outside
the two source files) renders a sequence of actions one letter per action in
history order (spec section 6). -/
def actions_to_str (actions : List Action) : List Char := actions.map actionChar

/-- Letter to action, `none` on an invalid letter. -/
def charToAction? (c : Char) : Option Action :=
  if c = 'C' then some C else if c = 'D' then some D else none

/-- Modelled from the spec: `str_to_actions` (in `axelrod/action.py`, outside
the two source files) parses one action per letter, failing on an invalid
letter. -/
def str_to_actions (cs : List Char) : Option (List Action) :=
  mapOption charToAction? cs

/-- Join pieces with a separator character, as Python's `sep.join`. -/
def intercalateChar (sep : Char) : List (List Char) → List Char
  | [] => []
  | p :: ps =>
      match ps with
      | [] => p
      | _ :: _ => p ++ sep :: intercalateChar sep ps

/-- Split on a separator character, as Python's `str.split(sep)`: always at
least one field, and one extra field per separator occurrence. -/
def splitOnChar (sep : Char) : List Char → List (List Char)
  | [] => [[]]
  | c :: cs =>
      match splitOnChar sep cs with
      | [] => [[]]
      | f :: fs => if c = sep then [] :: f :: fs else (c :: f) :: fs

/-- `EvolvableGambler.serialize_parameters`:
`"{}:{}:{}:{}:{}".format(self_depth, op_depth, op_openings_depth,
'|'.join(str(v) for v in pattern), actions_to_str(initial_actions))`.
`enc` models Python's `str` on a float weight. -/
def serialize_parameters (enc : ℚ → List Char) (s : EvolvableGambler) :
    List Char :=
  intercalateChar ':'
    [natToChars s.parameters.1, natToChars s.parameters.2.1,
      natToChars s.parameters.2.2,
      intercalateChar '|' (s.pattern.map enc),
      actions_to_str s.initial_actions]

/-- `EvolvableGambler.deserialize_parameters`: split on `':'`, parse the first
three fields as the parameters, split the fourth on `'|'` and parse each piece
as a weight (`parseQ` models Python's `float`), parse the fifth as the seed
actions, and construct the instance without passing a mutation probability.
Fields beyond the fifth are ignored, as Python's indexing `s[0:3]`, `s[3]`,
`s[4]` ignores them. -/
def deserialize_parameters (parseQ : List Char → Option ℚ)
    (serialized : List Char) : Option EvolvableGambler :=
  match splitOnChar ':' serialized with
  | f1 :: f2 :: f3 :: f4 :: f5 :: _ =>
      match charsToNat? f1, charsToNat? f2, charsToNat? f3,
          mapOption parseQ (splitOnChar '|' f4), str_to_actions f5 with
      | some d1, some d2, some d3, some pat, some ia =>
          mkEvolvableGambler (d1, d2, d3) pat ia none
      | _, _, _, _, _ => none
  | _ => none

/-- Modelled from the spec: `random_choice` (in `axelrod/random_.py`, outside
the two source files) treats the weight as P(Cooperate) and compares it with a
uniform draw `u`, with the boundary weights 0 and 1 deterministic regardless
of the draw (spec section 4.3, step 4). -/
def random_choice (p u : ℚ) : Action :=
  if p = 0 then D else if p = 1 then C else if u < p then C else D

/-- `Gambler.strategy`: the superclass lookup yields either a literal action
(`Sum.inl`) or a cooperation weight (`Sum.inr`); an action is returned as is,
a weight is sampled through `random_choice` with the uniform draw `u`. -/
def gamblerStrategy (actions_or_float : Action ⊕ ℚ) (u : ℚ) : Action :=
  match actions_or_float with
  | Sum.inl a => a
  | Sum.inr p => random_choice p u

/-- State of an `Anand` instance: the four-vector, `none` until one is set. -/
structure Anand : Type where
  fourVector : Option (ℚ × ℚ × ℚ × ℚ)
deriving DecidableEq

/-- `Anand.set_initial_four_vector`: the body is `pass`, so the supplied
four-vector is ignored and the state is unchanged. -/
def Anand.set_initial_four_vector (s : Anand) (_four_vector : ℚ × ℚ × ℚ × ℚ) :
    Anand := s

/-- Modelled from the spec: `MemoryOnePlayer.set_four_vector` (outside the two
source files) stores the four cooperation probabilities indexed by the
previous round's outcome in the order (C,C), (C,D), (D,C), (D,D)
(spec section 3). -/
def set_four_vector (s : Anand) (v : ℚ × ℚ × ℚ × ℚ) : Anand :=
  { s with fourVector := some v }

/-- `Anand.receive_match_attributes`: sets the four-vector to
`[7/9, 0, 8/9, 0]`. -/
def Anand.receive_match_attributes (s : Anand) : Anand :=
  set_four_vector s (7 / 9, 0, 8 / 9, 0)

/-- Modelled from the spec: the memory-one lookup of the cooperation weight by
(own last action, opponent last action) under the four-vector convention
(C,C), (C,D), (D,C), (D,D) (spec section 3). -/
def memoryOneLookup (v : ℚ × ℚ × ℚ × ℚ) (own opp : Action) : ℚ :=
  match own, opp with
  | C, C => v.1
  | C, D => v.2.1
  | D, C => v.2.2.1
  | D, D => v.2.2.2

instance {e a : Type} [DecidableEq e] [DecidableEq a] : DecidableEq (Except e a) :=
  fun x y =>
    match x, y with
    | Except.ok u, Except.ok v =>
        if h : u = v then isTrue (by rw [h])
        else isFalse (by intro hh; cases hh; exact h rfl)
    | Except.error u, Except.error v =>
        if h : u = v then isTrue (by rw [h])
        else isFalse (by intro hh; cases hh; exact h rfl)
    | Except.ok _, Except.error _ => isFalse (by intro hh; cases hh)
    | Except.error _, Except.ok _ => isFalse (by intro hh; cases hh)

/-- A concrete weight codec standing in for Python's float rendering in the
witnesses: numerator digits, a slash, denominator digits. -/
def encodeRat (q : ℚ) : List Char :=
  natToChars q.num.natAbs ++ '/' :: natToChars q.den

/-- Inverse of `encodeRat` on non-negative rationals. -/
def decodeRat (cs : List Char) : Option ℚ :=
  match splitOnChar '/' cs with
  | [a, b] =>
      (charsToNat? a).bind (fun n => (charsToNat? b).map (fun d => mkRat (n : ℤ) d))
  | _ => none

/-- A concrete well-formed instance with `Plays` parameters `(1, 1, 0)`, the
four-vector pattern `[7/9, 0, 8/9, 0]`, one seed action and mutation
probability 1, used by the witnesses. -/
def sampleGambler : EvolvableGambler :=
  ⟨(1, 1, 0), [mkRat 7 9, 0, mkRat 8 9, 0], [C], some 1,
    (create_lookup_table_keys 1 1 0).zip [mkRat 7 9, 0, mkRat 8 9, 0]⟩

/-- A concrete well-formed instance with an all-zero pattern and mutation
probability 1, used by the counterexample to the in-place-mutation claim. -/
def zeroGambler : EvolvableGambler :=
  ⟨(1, 1, 0), [0, 0, 0, 0], [C], some 1,
    (create_lookup_table_keys 1 1 0).zip [0, 0, 0, 0]⟩

/-! ## Supporting lemmas -/

theorem mutatePatternGo_length (randoms eps : ℕ → ℚ) (p : ℚ) :
    ∀ (l : List ℚ) (i : ℕ), (mutatePatternGo randoms eps p i l).length = l.length
  | [], _ => rfl
  | _ :: xs, i => by
      simp only [mutatePatternGo, List.length_cons,
        mutatePatternGo_length randoms eps p xs (i + 1)]

theorem mutate_pattern_length (l : List ℚ) (randoms eps : ℕ → ℚ) (p : ℚ) :
    (mutate_pattern l randoms eps p).length = l.length :=
  mutatePatternGo_length randoms eps p l 0

theorem mutatePatternGo_zero (randoms eps : ℕ → ℚ) (hr : ∀ i, 0 ≤ randoms i) :
    ∀ (l : List ℚ) (i : ℕ), mutatePatternGo randoms eps 0 i l = l
  | [], _ => rfl
  | x :: xs, i => by
      simp only [mutatePatternGo, if_neg (not_lt.2 (hr i)),
        mutatePatternGo_zero randoms eps hr xs (i + 1)]

theorem mutateEntry_mem_unit (x ep : ℚ) :
    0 ≤ mutateEntry x ep ∧ mutateEntry x ep ≤ 1 := by
  simp only [mutateEntry]
  split_ifs with h1 h2 h3 <;> constructor <;> linarith

theorem mutatePatternGo_bounded (randoms eps : ℕ → ℚ) (p : ℚ) :
    ∀ (l : List ℚ) (i : ℕ), (∀ x ∈ l, 0 ≤ x ∧ x ≤ 1) →
      ∀ y ∈ mutatePatternGo randoms eps p i l, 0 ≤ y ∧ y ≤ 1
  | [], _, _, y, hy => by cases hy
  | x :: xs, i, hl, y, hy => by
      rcases List.mem_cons.1 hy with hy | hy
      · subst hy
        by_cases hc : randoms i < p
        · simpa [mutatePatternGo, hc] using mutateEntry_mem_unit x (eps i)
        · simpa [mutatePatternGo, hc] using hl x (List.mem_cons_self x xs)
      · exact mutatePatternGo_bounded randoms eps p xs (i + 1)
          (fun z hz => hl z (List.mem_cons_of_mem x hz)) y hy

theorem mkEvolvableGambler_eq (parameters : ℕ × ℕ × ℕ) (pattern : List ℚ)
    (initial_actions : List Action) (mutation_probability : Option ℚ)
    (h1 : pattern.length =
      (create_lookup_table_keys parameters.1 parameters.2.1 parameters.2.2).length)
    (h2 : maxDepth parameters ≤ initial_actions.length) :
    mkEvolvableGambler parameters pattern initial_actions mutation_probability =
      some ⟨parameters, pattern, initial_actions, mutation_probability,
        (create_lookup_table_keys parameters.1 parameters.2.1 parameters.2.2).zip
          pattern⟩ := by
  unfold mkEvolvableGambler
  rw [if_pos ⟨h1, h2⟩]

theorem mutate_eq (s : EvolvableGambler) (randoms eps : ℕ → ℚ)
    (coin : ℕ → Action) (p : ℚ) (hp : s.mutation_probability = some p)
    (hwf : WellFormed s) :
    mutate s randoms eps coin =
      some ({ s with pattern := mutate_pattern s.pattern randoms eps p },
        ⟨s.parameters, mutate_pattern s.pattern randoms eps p,
          (List.range (maxDepth s.parameters)).map coin, some p,
          (create_lookup_table_keys s.parameters.1 s.parameters.2.1
            s.parameters.2.2).zip (mutate_pattern s.pattern randoms eps p)⟩) := by
  have h1 : (mutate_pattern s.pattern randoms eps p).length =
      (create_lookup_table_keys s.parameters.1 s.parameters.2.1
        s.parameters.2.2).length := by
    rw [mutate_pattern_length]
    exact hwf.1
  have h2 : maxDepth s.parameters ≤
      ((List.range (maxDepth s.parameters)).map coin).length := by
    simp
  unfold mutate
  rw [hp]
  dsimp only
  rw [mkEvolvableGambler_eq s.parameters (mutate_pattern s.pattern randoms eps p)
    ((List.range (maxDepth s.parameters)).map coin) (some p) h1 h2]

theorem actionSequences_ne_nil : ∀ n : ℕ, actionSequences n ≠ []
  | 0 => by simp [actionSequences]
  | n + 1 => by
      intro h
      rcases List.append_eq_nil.1 h with ⟨h1, _⟩
      exact actionSequences_ne_nil n (List.map_eq_nil_iff.1 h1)

theorem create_lookup_table_keys_ne_nil (d1 d2 d3 : ℕ) :
    create_lookup_table_keys d1 d2 d3 ≠ [] := by
  obtain ⟨s1, hs1⟩ := List.exists_mem_of_ne_nil _ (actionSequences_ne_nil d1)
  obtain ⟨s2, hs2⟩ := List.exists_mem_of_ne_nil _ (actionSequences_ne_nil d2)
  obtain ⟨s3, hs3⟩ := List.exists_mem_of_ne_nil _ (actionSequences_ne_nil d3)
  exact List.ne_nil_of_mem (List.mem_flatMap.2 ⟨s1, hs1,
    List.mem_flatMap.2 ⟨s2, hs2, List.mem_map.2 ⟨s3, hs3, rfl⟩⟩⟩)

theorem wellFormed_pattern_ne_nil (s : EvolvableGambler) (hwf : WellFormed s) :
    s.pattern ≠ [] := by
  intro h
  have hlen := hwf.1
  rw [h] at hlen
  exact create_lookup_table_keys_ne_nil s.parameters.1 s.parameters.2.1
    s.parameters.2.2 (List.eq_nil_of_length_eq_zero hlen.symm)

theorem mapOption_map_id (f : β → Option α) (g : α → β) :
    ∀ l : List α, (∀ a ∈ l, f (g a) = some a) → mapOption f (l.map g) = some l
  | [], _ => rfl
  | a :: as, h => by
      have ha := h a (List.mem_cons_self a as)
      have ih := mapOption_map_id f g as
        (fun x hx => h x (List.mem_cons_of_mem a hx))
      simp only [List.map_cons, mapOption, ha, ih]

theorem natDigitsAuxLE_ofDigits :
    ∀ fuel n : ℕ, n ≤ fuel → ofDigitsLE (natDigitsAuxLE fuel n) = n := by
  intro fuel
  induction fuel with
  | zero =>
      intro n hn
      interval_cases n
      rfl
  | succ fuel ih =>
      intro n hn
      match n with
      | 0 => rfl
      | m + 1 =>
          have hdiv : (m + 1) / 10 ≤ fuel := by
            have h1 : (m + 1) / 10 < m + 1 :=
              Nat.div_lt_self (Nat.succ_pos m) (by norm_num)
            omega
          simp only [natDigitsAuxLE, ofDigitsLE, ih _ hdiv]
          exact Nat.mod_add_div (m + 1) 10

theorem natDigitsAuxLE_lt_ten :
    ∀ fuel n d : ℕ, d ∈ natDigitsAuxLE fuel n → d < 10 := by
  intro fuel
  induction fuel with
  | zero =>
      intro n d hd
      match n with
      | 0 => cases hd
      | _ + 1 => cases hd
  | succ fuel ih =>
      intro n d hd
      match n with
      | 0 => cases hd
      | m + 1 =>
          simp only [natDigitsAuxLE] at hd
          rcases List.mem_cons.1 hd with h | h
          · rw [h]
            exact Nat.mod_lt _ (by norm_num)
          · exact ih _ _ h

theorem charToDigit?_digitChar (d : ℕ) (h : d < 10) :
    charToDigit? (digitChar d) = some d := by
  interval_cases d <;> decide

theorem digitChar_ne_colon (d : ℕ) : digitChar d ≠ ':' := by
  match d with
  | 0 => decide
  | 1 => decide
  | 2 => decide
  | 3 => decide
  | 4 => decide
  | 5 => decide
  | 6 => decide
  | 7 => decide
  | 8 => decide
  | n + 9 => exact (by decide : ('9' : Char) ≠ ':')

theorem natToChars_ne_nil (n : ℕ) : natToChars n ≠ [] := by
  match n with
  | 0 => decide
  | m + 1 =>
      simp only [natToChars, if_neg (Nat.succ_ne_zero m), natDigitsAuxLE,
        List.map_cons, List.reverse_cons]
      simp

theorem natToChars_mem (n : ℕ) (c : Char) (hc : c ∈ natToChars n) :
    ∃ d : ℕ, d < 10 ∧ c = digitChar d := by
  match n with
  | 0 =>
      refine ⟨0, by norm_num, ?_⟩
      simpa [natToChars] using hc
  | m + 1 =>
      simp only [natToChars, if_neg (Nat.succ_ne_zero m), List.mem_reverse,
        List.mem_map] at hc
      obtain ⟨d, hd, rfl⟩ := hc
      exact ⟨d, natDigitsAuxLE_lt_ten _ _ _ hd, rfl⟩

theorem natToChars_ne_colon (n : ℕ) (c : Char) (hc : c ∈ natToChars n) :
    c ≠ ':' := by
  obtain ⟨d, _, rfl⟩ := natToChars_mem n c hc
  exact digitChar_ne_colon d

theorem charsToNat?_natToChars (n : ℕ) : charsToNat? (natToChars n) = some n := by
  match n with
  | 0 => decide
  | m + 1 =>
      have hne := natToChars_ne_nil (m + 1)
      rcases hcs : natToChars (m + 1) with _ | ⟨c, cs⟩
      · exact absurd hcs hne
      · have hmap : mapOption charToDigit? (natToChars (m + 1)) =
            some ((natDigitsAuxLE (m + 1) (m + 1)).reverse) := by
          have hrw : natToChars (m + 1) =
              ((natDigitsAuxLE (m + 1) (m + 1)).reverse).map digitChar := by
            simp only [natToChars, if_neg (Nat.succ_ne_zero m), List.map_reverse]
          rw [hrw]
          exact mapOption_map_id charToDigit? digitChar _
            (fun d hd => charToDigit?_digitChar d
              (natDigitsAuxLE_lt_ten _ _ _ (List.mem_reverse.1 hd)))
        have hstep : charsToNat? (c :: cs) =
            (mapOption charToDigit? (c :: cs)).map
              (fun ds => ofDigitsLE ds.reverse) := rfl
        rw [hstep, ← hcs, hmap]
        simp only [Option.map_some', List.reverse_reverse]
        rw [natDigitsAuxLE_ofDigits (m + 1) (m + 1) (le_refl _)]

theorem splitOnChar_cons (sep c : Char) (cs : List Char) :
    splitOnChar sep (c :: cs) =
      match splitOnChar sep cs with
      | [] => [[]]
      | f :: fs => if c = sep then [] :: f :: fs else (c :: f) :: fs := by
  rw [splitOnChar]

theorem splitOnChar_ne_nil (sep : Char) (l : List Char) :
    splitOnChar sep l ≠ [] := by
  induction l with
  | nil => simp [splitOnChar]
  | cons c cs ih =>
      rw [splitOnChar_cons]
      rcases hs : splitOnChar sep cs with _ | ⟨f, fs⟩
      · exact absurd hs ih
      · dsimp only
        split_ifs <;> simp

theorem splitOnChar_not_mem (sep : Char) :
    ∀ l : List Char, sep ∉ l → splitOnChar sep l = [l]
  | [], _ => rfl
  | c :: cs, h => by
      have hc : c ≠ sep := fun e => h (by rw [e]; exact List.mem_cons_self _ _)
      have ih := splitOnChar_not_mem sep cs
        (fun hm => h (List.mem_cons_of_mem c hm))
      rw [splitOnChar_cons, ih]
      simp [hc]

theorem splitOnChar_append_sep (sep : Char) :
    ∀ f rest : List Char, sep ∉ f →
      splitOnChar sep (f ++ sep :: rest) = f :: splitOnChar sep rest
  | [], rest, _ => by
      rw [List.nil_append, splitOnChar_cons]
      rcases hs : splitOnChar sep rest with _ | ⟨f, fs⟩
      · exact absurd hs (splitOnChar_ne_nil sep rest)
      · simp
  | c :: f', rest, h => by
      have hc : c ≠ sep := fun e => h (by rw [e]; exact List.mem_cons_self _ _)
      have ih := splitOnChar_append_sep sep f' rest
        (fun hm => h (List.mem_cons_of_mem c hm))
      rw [List.cons_append, splitOnChar_cons, ih]
      simp [hc]

theorem intercalateChar_cons_cons (sep : Char) (p q : List Char)
    (ps : List (List Char)) :
    intercalateChar sep (p :: q :: ps) = p ++ sep :: intercalateChar sep (q :: ps) :=
  rfl

theorem splitOnChar_intercalate (sep : Char) :
    ∀ parts : List (List Char), parts ≠ [] → (∀ p ∈ parts, sep ∉ p) →
      splitOnChar sep (intercalateChar sep parts) = parts
  | [], h, _ => absurd rfl h
  | [p], _, hp => by
      simp only [intercalateChar]
      exact splitOnChar_not_mem sep p (hp p (List.mem_cons_self p []))
  | p :: q :: ps, _, hp => by
      have ih := splitOnChar_intercalate sep (q :: ps) (by simp)
        (fun x hx => hp x (List.mem_cons_of_mem p hx))
      rw [intercalateChar_cons_cons,
        splitOnChar_append_sep sep p _ (hp p (List.mem_cons_self p _)), ih]

theorem mem_intercalateChar (sep : Char) :
    ∀ (parts : List (List Char)) (c : Char),
      c ∈ intercalateChar sep parts → c = sep ∨ ∃ p ∈ parts, c ∈ p
  | [], c, h => by cases h
  | [p], c, h => by
      right
      exact ⟨p, List.mem_cons_self p [], by simpa [intercalateChar] using h⟩
  | p :: q :: ps, c, h => by
      simp only [intercalateChar] at h
      rcases List.mem_append.1 h with h | h
      · exact Or.inr ⟨p, List.mem_cons_self p _, h⟩
      · rcases List.mem_cons.1 h with h | h
        · exact Or.inl h
        · rcases mem_intercalateChar sep (q :: ps) c h with h | ⟨x, hx, hcx⟩
          · exact Or.inl h
          · exact Or.inr ⟨x, List.mem_cons_of_mem p hx, hcx⟩

theorem actionChar_ne_colon (a : Action) : actionChar a ≠ ':' := by
  cases a <;> decide

theorem charToAction?_actionChar (a : Action) :
    charToAction? (actionChar a) = some a := by
  cases a <;> rfl

theorem str_to_actions_roundtrip (l : List Action) :
    str_to_actions (actions_to_str l) = some l :=
  mapOption_map_id charToAction? actionChar l
    (fun a _ => charToAction?_actionChar a)

theorem deserialize_serialize (enc : ℚ → List Char)
    (parseQ : List Char → Option ℚ) (s : EvolvableGambler)
    (hwf : WellFormed s)
    (henc : ∀ w ∈ s.pattern, parseQ (enc w) = some w)
    (hsep : ∀ w ∈ s.pattern, ∀ c ∈ enc w, c ≠ ':' ∧ c ≠ '|') :
    deserialize_parameters parseQ (serialize_parameters enc s) =
      some ⟨s.parameters, s.pattern, s.initial_actions, none,
        (create_lookup_table_keys s.parameters.1 s.parameters.2.1
          s.parameters.2.2).zip s.pattern⟩ := by
  have hp_ne : s.pattern ≠ [] := wellFormed_pattern_ne_nil s hwf
  have hmap_ne : s.pattern.map enc ≠ [] := by
    simpa [List.map_eq_nil_iff] using hp_ne
  have hbar_free : ∀ p ∈ s.pattern.map enc, '|' ∉ p := by
    intro p hp
    obtain ⟨w, hw, rfl⟩ := List.mem_map.1 hp
    intro hc
    exact (hsep w hw '|' hc).2 rfl
  have hsplit4 : splitOnChar '|' (intercalateChar '|' (s.pattern.map enc)) =
      s.pattern.map enc := splitOnChar_intercalate '|' _ hmap_ne hbar_free
  have hcolon4 : ':' ∉ intercalateChar '|' (s.pattern.map enc) := by
    intro hc
    rcases mem_intercalateChar '|' _ ':' hc with h | ⟨p, hp, hcp⟩
    · exact (by decide : (':' : Char) ≠ '|') h
    · obtain ⟨w, hw, rfl⟩ := List.mem_map.1 hp
      exact (hsep w hw ':' hcp).1 rfl
  have hcolonA : ∀ n : ℕ, ':' ∉ natToChars n :=
    fun n hc => natToChars_ne_colon n ':' hc rfl
  have hcolonE : ':' ∉ actions_to_str s.initial_actions := by
    intro hc
    obtain ⟨a, _, ha⟩ := List.mem_map.1 hc
    exact actionChar_ne_colon a ha
  have hsplit : splitOnChar ':' (serialize_parameters enc s) =
      [natToChars s.parameters.1, natToChars s.parameters.2.1,
        natToChars s.parameters.2.2, intercalateChar '|' (s.pattern.map enc),
        actions_to_str s.initial_actions] := by
    unfold serialize_parameters
    refine splitOnChar_intercalate ':' _ (by simp) ?_
    intro p hp
    simp only [List.mem_cons, List.not_mem_nil, or_false] at hp
    rcases hp with rfl | rfl | rfl | rfl | rfl
    · exact hcolonA _
    · exact hcolonA _
    · exact hcolonA _
    · exact hcolon4
    · exact hcolonE
  unfold deserialize_parameters
  rw [hsplit]
  dsimp only
  rw [charsToNat?_natToChars, charsToNat?_natToChars, charsToNat?_natToChars,
    hsplit4, mapOption_map_id parseQ enc s.pattern henc]
  rw [str_to_actions_roundtrip s.initial_actions]
  dsimp only
  exact mkEvolvableGambler_eq s.parameters s.pattern s.initial_actions none
    hwf.1 hwf.2

/-! ## Claims -/

/-- Claim C1 counterexample: with mutation probability 1, random draws 1/2 and
offset 1/8, `mutate` on the all-zero four-entry instance returns an offspring
but also leaves the calling instance with the mutated pattern
`[1/8, 1/8, 1/8, 1/8]` (and a stale lookup table), so the original's pattern
is not element-for-element equal to its pattern before the call. -/
theorem mutate_preserves_caller_pattern_cex :
    mutate zeroGambler (fun _ => mkRat 1 2) (fun _ => mkRat 1 8) (fun _ => C) =
      some (⟨(1, 1, 0), [mkRat 1 8, mkRat 1 8, mkRat 1 8, mkRat 1 8], [C], some 1,
          (create_lookup_table_keys 1 1 0).zip [0, 0, 0, 0]⟩,
        ⟨(1, 1, 0), [mkRat 1 8, mkRat 1 8, mkRat 1 8, mkRat 1 8], [C], some 1,
          (create_lookup_table_keys 1 1 0).zip
            [mkRat 1 8, mkRat 1 8, mkRat 1 8, mkRat 1 8]⟩) ∧
    ¬ ([mkRat 1 8, mkRat 1 8, mkRat 1 8, mkRat 1 8] = zeroGambler.pattern) := by
  constructor
  · simp only [mutate, zeroGambler, mutate_pattern, mutatePatternGo, mutateEntry,
      zero_add]
    decide
  · decide

/-- Claim C1 (amended): `mutate` returns a new offspring instance carrying the
mutated pattern, but it also mutates the calling instance in place: after the
call the caller's state is exactly the old state with its pattern overwritten
by the mutated pattern (its cached lookup table is not rebuilt), and the
offspring's pattern equals that mutated pattern. -/
theorem mutate_caller_pattern_amended (s : EvolvableGambler)
    (randoms eps : ℕ → ℚ) (coin : ℕ → Action) (p : ℚ)
    (hp : s.mutation_probability = some p) (hwf : WellFormed s) :
    ∃ offspring,
      mutate s randoms eps coin =
        some ({ s with pattern := mutate_pattern s.pattern randoms eps p },
          offspring) ∧
      offspring.pattern = mutate_pattern s.pattern randoms eps p :=
  ⟨_, mutate_eq s randoms eps coin p hp hwf, rfl⟩

/-- Claim C1 amended witness at the all-zero instance. -/
theorem mutate_caller_pattern_amended_witness :
    zeroGambler.mutation_probability = some 1 ∧ WellFormed zeroGambler ∧
    ∃ offspring,
      mutate zeroGambler (fun _ => mkRat 1 2) (fun _ => mkRat 1 8)
          (fun _ => C) =
        some ({ zeroGambler with
            pattern := mutate_pattern zeroGambler.pattern (fun _ => mkRat 1 2)
              (fun _ => mkRat 1 8) 1 },
          offspring) ∧
      offspring.pattern = mutate_pattern zeroGambler.pattern
        (fun _ => mkRat 1 2) (fun _ => mkRat 1 8) 1 :=
  ⟨rfl, by decide,
    mutate_caller_pattern_amended zeroGambler (fun _ => mkRat 1 2)
      (fun _ => mkRat 1 8) (fun _ => C) 1 rfl (by decide)⟩

/-- Claim C2: `receive_vector` fails with the configuration (size-mismatch)
error whenever the vector's length differs from the key-space size of the
instance's parameters; when the length matches it replaces the pattern with
the vector and rebuilds the lookup table as the key list zipped with the new
pattern, so the table matches the pattern. -/
theorem receive_vector_spec (s : EvolvableGambler) (v : List ℚ) :
    (v.length ≠ keySpaceSize s.parameters →
      receive_vector s v = Except.error StrategyError.configurationError) ∧
    (v.length = keySpaceSize s.parameters →
      receive_vector s v = Except.ok
        { s with
          pattern := v,
          lookupTable := (create_lookup_table_keys s.parameters.1
            s.parameters.2.1 s.parameters.2.2).zip v }) := by
  unfold keySpaceSize
  constructor
  · intro h
    unfold receive_vector from_pattern
    rw [if_neg h]
  · intro h
    unfold receive_vector from_pattern
    rw [if_pos h]

/-- Claim C2 witness: a length-1 vector is rejected, a length-4 vector is
accepted and installs the matching table, on the `(1, 1, 0)` sample. -/
theorem receive_vector_spec_witness :
    receive_vector sampleGambler [mkRat 1 2] =
      Except.error StrategyError.configurationError ∧
    receive_vector sampleGambler [mkRat 1 4, mkRat 1 4, mkRat 1 4, mkRat 1 4] =
      Except.ok
        { sampleGambler with
          pattern := [mkRat 1 4, mkRat 1 4, mkRat 1 4, mkRat 1 4],
          lookupTable := (create_lookup_table_keys 1 1 0).zip
            [mkRat 1 4, mkRat 1 4, mkRat 1 4, mkRat 1 4] } :=
  ⟨(receive_vector_spec sampleGambler [mkRat 1 2]).1 (by decide),
    (receive_vector_spec sampleGambler
      [mkRat 1 4, mkRat 1 4, mkRat 1 4, mkRat 1 4]).2 (by decide)⟩

/-- Claim C4: `Gambler.strategy` returns Cooperate for weight exactly 1 and
Defect for weight exactly 0 whatever the random draw, and returns a literal
action from the lookup unchanged, without consulting the draw. -/
theorem gambler_strategy_boundary :
    (∀ u : ℚ, gamblerStrategy (Sum.inr 1) u = C) ∧
    (∀ u : ℚ, gamblerStrategy (Sum.inr 0) u = D) ∧
    (∀ (a : Action) (u : ℚ), gamblerStrategy (Sum.inl a) u = a) := by
  refine ⟨fun u => ?_, fun u => rfl, fun a u => rfl⟩
  simp [gamblerStrategy, random_choice]

/-- Claim C5: `Anand.receive_match_attributes` installs the four-vector
`(7/9, 0, 8/9, 0)`; under the convention (C,C), (C,D), (D,C), (D,D) the
looked-up cooperation weight is 7/9 for own last action C against opponent
last action C and 8/9 for own D against opponent C, and the same weights
arise from the `(1, 1, 0)` lookup table built from the pattern
`[7/9, 0, 8/9, 0]`. -/
theorem anand_four_vector_weights (s : Anand) :
    (Anand.receive_match_attributes s).fourVector = some (7/9, 0, 8/9, 0) ∧
    memoryOneLookup (7/9, 0, 8/9, 0) C C = 7/9 ∧
    memoryOneLookup (7/9, 0, 8/9, 0) D C = 8/9 ∧
    tableGet ((create_lookup_table_keys 1 1 0).zip [7/9, 0, 8/9, 0])
      ([C], [C], []) = some (7/9) ∧
    tableGet ((create_lookup_table_keys 1 1 0).zip [7/9, 0, 8/9, 0])
      ([D], [C], []) = some (8/9) :=
  ⟨rfl, rfl, rfl, rfl, rfl⟩

/-- Claim C6: whenever every entry of the input pattern lies in `[0, 1]`,
every entry of the pattern returned by `mutate_pattern` lies in `[0, 1]`, for
every mutation probability and all random draws, including offsets that push
an entry outside the range before clamping. -/
theorem mutate_pattern_bounded (pattern : List ℚ) (randoms eps : ℕ → ℚ)
    (p : ℚ) (h : ∀ x ∈ pattern, 0 ≤ x ∧ x ≤ 1) :
    ∀ y ∈ mutate_pattern pattern randoms eps p, 0 ≤ y ∧ y ≤ 1 :=
  mutatePatternGo_bounded randoms eps p pattern 0 h

/-- Claim C6 witness: mutation probability 1 with offset 1/5 on the pattern
`[9/10]`, where the pre-clamp value 11/10 leaves the unit interval. -/
theorem mutate_pattern_bounded_witness :
    (∀ x ∈ [mkRat 9 10], 0 ≤ x ∧ x ≤ 1) ∧
    ∀ y ∈ mutate_pattern [mkRat 9 10] (fun _ => 0) (fun _ => mkRat 1 5) 1,
      0 ≤ y ∧ y ≤ 1 :=
  ⟨by decide,
    mutate_pattern_bounded [mkRat 9 10] (fun _ => 0) (fun _ => mkRat 1 5) 1
      (by decide)⟩

/-- Claim C7: with mutation probability 0 (and the `np.random.random` draws
non-negative, as they are in `[0, 1)`), `mutate` leaves the calling instance
unchanged and returns an offspring whose pattern is element-for-element the
input pattern, while its seed actions are the freshly drawn
`choice((C, D))` values, of length `max(plays, op_plays, op_start_plays)`. -/
theorem mutate_zero_probability (s : EvolvableGambler) (randoms eps : ℕ → ℚ)
    (coin : ℕ → Action) (hp : s.mutation_probability = some 0)
    (hr : ∀ i, 0 ≤ randoms i) (hwf : WellFormed s) :
    ∃ offspring,
      mutate s randoms eps coin = some (s, offspring) ∧
      offspring.pattern = s.pattern ∧
      offspring.initial_actions = (List.range (maxDepth s.parameters)).map coin ∧
      offspring.initial_actions.length = maxDepth s.parameters := by
  have hzero : mutate_pattern s.pattern randoms eps 0 = s.pattern :=
    mutatePatternGo_zero randoms eps hr s.pattern 0
  have h := mutate_eq s randoms eps coin 0 hp hwf
  rw [hzero] at h
  exact ⟨_, h, rfl, rfl, by simp⟩

/-- Claim C7 witness: the sample instance with mutation probability set to 0
and all `np.random.random` draws equal to 1/2. -/
theorem mutate_zero_probability_witness :
    ({ sampleGambler with mutation_probability := some 0 }.mutation_probability
        = some 0) ∧
    (∀ i : ℕ, 0 ≤ (fun _ : ℕ => mkRat 1 2) i) ∧
    WellFormed { sampleGambler with mutation_probability := some 0 } ∧
    ∃ offspring,
      mutate { sampleGambler with mutation_probability := some 0 }
          (fun _ => mkRat 1 2) (fun _ => mkRat 1 8) (fun _ => D) =
        some ({ sampleGambler with mutation_probability := some 0 },
          offspring) ∧
      offspring.pattern =
        { sampleGambler with mutation_probability := some 0 }.pattern ∧
      offspring.initial_actions =
        (List.range (maxDepth { sampleGambler with
          mutation_probability := some 0 }.parameters)).map (fun _ => D) ∧
      offspring.initial_actions.length =
        maxDepth { sampleGambler with
          mutation_probability := some 0 }.parameters :=
  ⟨rfl, fun i => (by decide : (0 : ℚ) ≤ mkRat 1 2), by decide,
    mutate_zero_probability { sampleGambler with mutation_probability := some 0 }
      (fun _ => mkRat 1 2) (fun _ => mkRat 1 8) (fun _ => D) rfl
      (fun i => (by decide : (0 : ℚ) ≤ mkRat 1 2)) (by decide)⟩

/-- Claim C8: crossing an instance over with itself succeeds and yields an
offspring whose pattern is element-for-element the instance's own pattern,
for any split point up to the pattern length. -/
theorem crossover_with_self (s : EvolvableGambler) (cross_point : ℕ)
    (hwf : WellFormed s) (_hc : cross_point ≤ s.pattern.length) :
    ∃ offspring, crossover s s cross_point = some offspring ∧
      offspring.pattern = s.pattern := by
  refine ⟨⟨s.parameters, s.pattern, s.initial_actions, s.mutation_probability,
    (create_lookup_table_keys s.parameters.1 s.parameters.2.1
      s.parameters.2.2).zip s.pattern⟩, ?_, rfl⟩
  unfold crossover
  dsimp only
  rw [List.take_append_drop]
  exact mkEvolvableGambler_eq s.parameters s.pattern s.initial_actions
    s.mutation_probability hwf.1 hwf.2

/-- Claim C8 witness: the sample instance with split point 2. -/
theorem crossover_with_self_witness :
    WellFormed sampleGambler ∧ 2 ≤ sampleGambler.pattern.length ∧
    ∃ offspring, crossover sampleGambler sampleGambler 2 = some offspring ∧
      offspring.pattern = sampleGambler.pattern :=
  ⟨by decide, by decide,
    crossover_with_self sampleGambler 2 (by decide) (by decide)⟩

/-- Claim C3: the serialized form is
`"<self_depth>:<op_depth>:<op_openings_depth>:<w1>|...|<wn>:<letters>"`, and
deserializing it reproduces an instance whose parameters triple, pattern (as
parsed values) and seed actions are identical to the original's.  `enc` and
`parseQ` model Python's float rendering and parsing, which round-trip exactly
and never produce a `':'` or `'|'`. -/
theorem serialize_roundtrip (enc : ℚ → List Char)
    (parseQ : List Char → Option ℚ) (s : EvolvableGambler)
    (hwf : WellFormed s)
    (henc : ∀ w ∈ s.pattern, parseQ (enc w) = some w)
    (hsep : ∀ w ∈ s.pattern, ∀ c ∈ enc w, c ≠ ':' ∧ c ≠ '|') :
    serialize_parameters enc s =
      intercalateChar ':' [natToChars s.parameters.1,
        natToChars s.parameters.2.1, natToChars s.parameters.2.2,
        intercalateChar '|' (s.pattern.map enc),
        actions_to_str s.initial_actions] ∧
    ∃ t, deserialize_parameters parseQ (serialize_parameters enc s) = some t ∧
      t.parameters = s.parameters ∧ t.pattern = s.pattern ∧
      t.initial_actions = s.initial_actions :=
  ⟨rfl, ⟨_, deserialize_serialize enc parseQ s hwf henc hsep, rfl, rfl, rfl⟩⟩

/-- Claim C3 witness: the `(1, 1, 0)` sample instance with the concrete
weight codec. -/
theorem serialize_roundtrip_witness :
    WellFormed sampleGambler ∧
    (∀ w ∈ sampleGambler.pattern, decodeRat (encodeRat w) = some w) ∧
    (∀ w ∈ sampleGambler.pattern, ∀ c ∈ encodeRat w, c ≠ ':' ∧ c ≠ '|') ∧
    (serialize_parameters encodeRat sampleGambler =
      intercalateChar ':' [natToChars sampleGambler.parameters.1,
        natToChars sampleGambler.parameters.2.1,
        natToChars sampleGambler.parameters.2.2,
        intercalateChar '|' (sampleGambler.pattern.map encodeRat),
        actions_to_str sampleGambler.initial_actions] ∧
    ∃ t, deserialize_parameters decodeRat
        (serialize_parameters encodeRat sampleGambler) = some t ∧
      t.parameters = sampleGambler.parameters ∧
      t.pattern = sampleGambler.pattern ∧
      t.initial_actions = sampleGambler.initial_actions) :=
  ⟨by decide, by decide, by decide,
    serialize_roundtrip encodeRat decodeRat sampleGambler (by decide)
      (by decide) (by decide)⟩

/-- Claim C9: the serialized string omits the mutation probability
(serialization is invariant under changing it), and
`deserialize_parameters` constructs the result without passing one, so the
deserialized instance's mutation probability is the constructor default
`none` regardless of the original instance's value. -/
theorem roundtrip_drops_mutation_probability (enc : ℚ → List Char)
    (parseQ : List Char → Option ℚ) (s : EvolvableGambler)
    (hwf : WellFormed s)
    (henc : ∀ w ∈ s.pattern, parseQ (enc w) = some w)
    (hsep : ∀ w ∈ s.pattern, ∀ c ∈ enc w, c ≠ ':' ∧ c ≠ '|') :
    (∀ mp : Option ℚ, serialize_parameters enc
      { s with mutation_probability := mp } = serialize_parameters enc s) ∧
    ∀ t, deserialize_parameters parseQ (serialize_parameters enc s) = some t →
      t.mutation_probability = none := by
  refine ⟨fun mp => rfl, fun t ht => ?_⟩
  rw [deserialize_serialize enc parseQ s hwf henc hsep] at ht
  injection ht with h
  rw [← h]

/-- Claim C9 witness: on the sample instance (whose own mutation probability
is 1), serialization ignores the mutation probability and the round trip
comes back with `none`. -/
theorem roundtrip_drops_mutation_probability_witness :
    serialize_parameters encodeRat
        { sampleGambler with mutation_probability := none } =
      serialize_parameters encodeRat sampleGambler ∧
    (deserialize_parameters decodeRat
        (serialize_parameters encodeRat sampleGambler)).map
      (fun t => t.mutation_probability) = some none := by
  have h := roundtrip_drops_mutation_probability encodeRat decodeRat
    sampleGambler (by decide) (by decide) (by decide)
  exact ⟨h.1 none, by decide⟩

/-- Claim C10: `Anand.set_initial_four_vector` ignores its argument and
leaves the state entirely unchanged, and the four-vector becomes the fixed
constants `(7/9, 0, 8/9, 0)` exactly when `receive_match_attributes` runs,
independently of any supplied four-vector. -/
theorem set_initial_four_vector_noop (s : Anand) (v : ℚ × ℚ × ℚ × ℚ) :
    Anand.set_initial_four_vector s v = s ∧
    (Anand.set_initial_four_vector s v).fourVector = s.fourVector ∧
    (Anand.receive_match_attributes
      (Anand.set_initial_four_vector s v)).fourVector =
        some (7/9, 0, 8/9, 0) :=
  ⟨rfl, rfl, rfl⟩

end Axelrod
